import Mathlib

/-
Shallow embedding of the Walavouchey/observatory bot (Rust):
  - src/helpers/pulls.rs : Article, ConflictType, Conflict, compare_pulls
  - src/github.rs        : Token, TokenType, token cache, installations, pagination
  - src/structs.rs       : PullRequest, Installation, Repository, InstallationToken

Conventions used throughout:
  - Rust panics (unwrap / expect) are modelled as Option.none or a failed result;
    fallible code returns Option / Except.
  - chrono timestamps are modelled as Int (seconds); "now" is passed explicitly.
  - unidiff::PatchSet (external crate) is modelled at its interface: a list of
    per-file records, each exposing the raw target_file header and the derived
    path() used by the code.
-/

namespace Observatory

/-! Model of Rust std::path::Path operations (Unix), as used by
    Article::from_file_path: file_stem() and parent().
    A path string is split on the separator into chunks; empty chunks come from
    duplicate, leading or trailing separators, and a "." chunk is normalized
    away unless it is the leading chunk of a relative path (Component::CurDir). -/

/-- Split a character list at every occurrence of sep (same semantics as
    String.splitOn with a one-character separator, in a form the kernel can
    evaluate). -/
def splitOnCharAux (sep : Char) : List Char → List Char → List (List Char)
  | [], acc => [acc.reverse]
  | c :: rest, acc =>
    if c = sep then acc.reverse :: splitOnCharAux sep rest []
    else splitOnCharAux sep rest (c :: acc)

def splitOnChar (sep : Char) (l : List Char) : List (List Char) :=
  splitOnCharAux sep l []

/-- Rust str::ends_with (String.endsWith, in a form the kernel can
    evaluate): suffix on characters, which for UTF-8 agrees with suffix on
    bytes. -/
def strEndsWith (s suf : String) : Bool :=
  List.isSuffixOf suf.data s.data

def pathChunks (s : String) : List String :=
  (splitOnChar '/' s.data).map String.mk

/-- Whether the chunk c at index i of the chunk list is a real path component
    (Rust Component::Normal, ParentDir, or a leading CurDir). -/
def isComponent (i : Nat) (c : String) : Bool :=
  c ≠ "" && (c ≠ "." || i == 0)

/-- The real components of the chunk list, with their chunk indices. -/
def componentsIdx (cs : List String) : List (Nat × String) :=
  cs.enum.filter (fun ic => isComponent ic.1 ic.2)

/-- Rust Path::file_name (Unix): the final real component, unless it is
    ".." (ParentDir) or "." (a leading CurDir), or there is none (empty or
    root-only path). -/
def fileName (s : String) : Option String :=
  match (componentsIdx (pathChunks s)).getLast? with
  | none => none
  | some ic => if ic.2 = ".." ∨ ic.2 = "." then none else some ic.2

/-- Rust Path::file_stem on a known file name: the portion before the final
    dot, unless that portion is empty (dotfile), in which case the whole name. -/
def fileStemOfName (n : String) : String :=
  match (splitOnChar '.' n.data).map String.mk with
  | [] => n
  | [_] => n
  | ps =>
    let pre := String.intercalate "." ps.dropLast
    if pre = "" then n else pre

/-- Rust Path::file_stem. -/
def fileStem (s : String) : Option String :=
  (fileName s).map fileStemOfName

/-- Rust Path::parent converted to a string with to_str (Unix): the slice of
    the original path up to the end of the second-to-last real component
    (inner duplicate separators are preserved, trailing separators and
    normalized-away "." chunks are not); none when the path has no components
    (empty path) or only the root. When no real component remains before the
    last one, the result is the leading separator run (all chunks before
    index i are empty exactly when the first i characters are separators). -/
def parentPath (s : String) : Option String :=
  let cs := pathChunks s
  match (componentsIdx cs).getLast? with
  | none => none
  | some ic =>
    match (componentsIdx (cs.take ic.1)).getLast? with
    | some jc => some (String.intercalate "/" (cs.take (jc.1 + 1)))
    | none => some (String.mk (List.replicate ic.1 '/'))

/-! src/helpers/pulls.rs : Article -/

/-- A lightweight article wrapper, made for ease of file path comparison.
    (pulls.rs lines 144-148) -/
structure Article where
  path : String
  language : String
deriving DecidableEq, Repr

/-- Article::from_file_path (pulls.rs lines 151-156). The Rust code calls
    file_stem().unwrap() and then parent().unwrap(); each unwrap panics on
    None, modelled here as Option.none. (to_str().unwrap() always succeeds:
    the input is a valid UTF-8 string.) -/
def Article.from_file_path (s : String) : Option Article :=
  match fileStem s with
  | none => none
  | some language =>
    match parentPath s with
    | none => none
    | some path => some { path := path, language := language }

/-- Article::file_path (pulls.rs lines 158-160). -/
def Article.file_path (a : Article) : String :=
  a.path ++ "/" ++ a.language ++ ".md"

/-- Article::is_original (pulls.rs lines 162-164). -/
def Article.is_original (a : Article) : Bool :=
  a.language == "en"

/-- Article::is_translation (pulls.rs lines 166-168). -/
def Article.is_translation (a : Article) : Bool :=
  !a.is_original

/-! Diff model: unidiff::PatchSet is an external crate, modelled at its
    interface as used by compare_pulls. Each changed file exposes the raw
    target-file header (filtered on the ".md" suffix) and the derived
    path() string (fed to Article::from_file_path). -/

structure PatchedFile where
  target_file : String
  path : String
deriving DecidableEq, Repr

structure PatchSet where
  files : List PatchedFile
deriving DecidableEq, Repr

/-! src/structs.rs : PullRequest (fields with serde types flattened:
    timestamps as Int, the user actor as its login string). -/

structure PullRequest where
  id : Int
  number : Int
  state : String
  title : String
  user_login : String
  html_url : String
  created_at : Int
  updated_at : Int
  diff : Option PatchSet
deriving Repr

/-! src/helpers/pulls.rs : ConflictType, Conflict -/

/-- Types of pull conflicts (pulls.rs lines 11-24). -/
inductive ConflictType where
  | ExistingChange
  | NewOriginalChange
  | ExistingOriginalChange
deriving DecidableEq, Repr

/-- The variant index used by the derived Rust Ord on ConflictType
    (declaration order). -/
def ConflictType.idx : ConflictType → Nat
  | .ExistingChange => 0
  | .NewOriginalChange => 1
  | .ExistingOriginalChange => 2

/-- A structure containing information about a conflict between two pull
    requests (pulls.rs lines 38-55). -/
structure Conflict where
  kind : ConflictType
  trigger : Int
  original : Int
  reference_url : String
  file_set : List String
deriving DecidableEq, Repr

/-- Conflict::existing_change (pulls.rs lines 73-86). -/
def Conflict.existing_change (trigger original : Int) (reference_url : String)
    (file_set : List String) : Conflict :=
  { kind := .ExistingChange, trigger := trigger, original := original,
    reference_url := reference_url, file_set := file_set }

/-- Conflict::new_original_change (pulls.rs lines 87-100). -/
def Conflict.new_original_change (trigger original : Int) (reference_url : String)
    (file_set : List String) : Conflict :=
  { kind := .NewOriginalChange, trigger := trigger, original := original,
    reference_url := reference_url, file_set := file_set }

/-- Conflict::existing_original_change (pulls.rs lines 101-114). -/
def Conflict.existing_original_change (trigger original : Int) (reference_url : String)
    (file_set : List String) : Conflict :=
  { kind := .ExistingOriginalChange, trigger := trigger, original := original,
    reference_url := reference_url, file_set := file_set }

/-! Sorting. Rust Vec::sort is a stable ascending sort; on a list over a
    total order any ascending stable sort computes the same list, modelled
    here by insertion sort with a boolean "less or equal" comparator. -/

def insertLe (le : α → α → Bool) (x : α) : List α → List α
  | [] => [x]
  | y :: ys => if le x y then x :: y :: ys else y :: insertLe le x ys

def sortLe (le : α → α → Bool) : List α → List α
  | [] => []
  | x :: xs => insertLe le x (sortLe le xs)

def charLtb (a b : Char) : Bool := a.toNat < b.toNat

/-- Lexicographic strict order on character lists. -/
def charListLt : List Char → List Char → Bool
  | _, [] => false
  | [], _ :: _ => true
  | a :: as, b :: bs =>
    if charLtb a b then true
    else if charLtb b a then false
    else charListLt as bs

/-- Byte-lexicographic strict order on strings (Rust String Ord; UTF-8 byte
    order agrees with codepoint order). -/
def strLt (a b : String) : Bool := charListLt a.data b.data

/-- Less-or-equal for the same total order. -/
def strLe (a b : String) : Bool := !strLt b a

/-- Lexicographic order on Vec of String (Rust derived Ord, prefix first). -/
def listStrLe : List String → List String → Bool
  | [], _ => true
  | _ :: _, [] => false
  | x :: xs, y :: ys => if x = y then listStrLe xs ys else strLt x y

/-- The derived Rust Ord on Conflict: lexicographic over the fields in
    declaration order (kind, trigger, original, reference_url, file_set). -/
def Conflict.le (a b : Conflict) : Bool :=
  if a.kind.idx ≠ b.kind.idx then a.kind.idx < b.kind.idx
  else if a.trigger ≠ b.trigger then a.trigger < b.trigger
  else if a.original ≠ b.original then a.original < b.original
  else if a.reference_url ≠ b.reference_url then strLt a.reference_url b.reference_url
  else listStrLe a.file_set b.file_set

/-! src/helpers/pulls.rs : compare_pulls (lines 178-251). -/

/-- The ".md" filter applied to each diff side (pulls.rs lines 189-198). -/
def mdFiles (d : PatchSet) : List PatchedFile :=
  d.files.filter (fun fp => strEndsWith fp.target_file ".md")

/-- The (incoming, other) file pairs visited by the nested loop, in loop
    order. -/
def filePairs (md1 md2 : List PatchedFile) : List (PatchedFile × PatchedFile) :=
  md1.flatMap (fun i => md2.map (fun o => (i, o)))

/-- Both sides of a pair parse as articles; from_file_path is called on
    every visited pair before any other check (pulls.rs lines 199-200), and
    a parse failure is a panic that aborts the whole comparison. -/
def parsesOk (i o : PatchedFile) : Bool :=
  (Article.from_file_path i.path).isSome && (Article.from_file_path o.path).isSome

/-- The contribution of one file pair to the overlaps list
    (pulls.rs lines 202-210): same directory and same article. -/
def overlapOf (i o : PatchedFile) : Option String :=
  match Article.from_file_path i.path, Article.from_file_path o.path with
  | some na, some oa =>
    if na.path ≠ oa.path then none
    else if na = oa then some na.file_path
    else none
  | _, _ => none

/-- The contribution of one file pair to the originals list
    (pulls.rs lines 212-213): same directory, incoming original, other
    translation. -/
def originalOf (i o : PatchedFile) : Option String :=
  match Article.from_file_path i.path, Article.from_file_path o.path with
  | some na, some oa =>
    if na.path ≠ oa.path then none
    else if na = oa then none
    else if na.is_original && oa.is_translation then some na.file_path
    else none
  | _, _ => none

/-- The contribution of one file pair to the translations list
    (pulls.rs lines 214-216): same directory, incoming translation, other
    original. -/
def translationOf (i o : PatchedFile) : Option String :=
  match Article.from_file_path i.path, Article.from_file_path o.path with
  | some na, some oa =>
    if na.path ≠ oa.path then none
    else if na = oa then none
    else if na.is_original && oa.is_translation then none
    else if na.is_translation && oa.is_original then some na.file_path
    else none
  | _, _ => none

/-- The body of compare_pulls once both diffs are available
    (pulls.rs lines 185-250). The Rust loop panics at the first file pair
    whose Article::from_file_path unwrap fails, so the call diverges exactly
    when some visited pair fails to parse (none here); otherwise the three
    path lists are collected over the pairs in loop order, each sorted, and
    at most one conflict per non-empty list is emitted, the result sorted by
    the derived Conflict order. -/
def comparePullsWithDiffs (np op : PullRequest) (d1 d2 : PatchSet) :
    Option (List Conflict) :=
  let fps := filePairs (mdFiles d1) (mdFiles d2)
  if fps.all (fun p => parsesOk p.1 p.2) then
    let overlaps := sortLe strLe (fps.filterMap (fun p => overlapOf p.1 p.2))
    let originals := sortLe strLe (fps.filterMap (fun p => originalOf p.1 p.2))
    let translations := sortLe strLe (fps.filterMap (fun p => translationOf p.1 p.2))
    let out :=
      (if overlaps.isEmpty then []
       else [Conflict.existing_change np.number op.number op.html_url overlaps]) ++
      (if originals.isEmpty then []
       else [Conflict.new_original_change op.number np.number np.html_url originals]) ++
      (if translations.isEmpty then []
       else [Conflict.existing_original_change np.number op.number op.html_url translations])
    some (sortLe Conflict.le out)
  else none

/-- compare_pulls (pulls.rs lines 178-251). The two diff unwraps on lines
    182-183 panic when a diff is absent, modelled as none. -/
def compare_pulls (np op : PullRequest) : Option (List Conflict) :=
  match np.diff, op.diff with
  | some d1, some d2 => comparePullsWithDiffs np op d1 d2
  | _, _ => none

/-! src/github.rs : token types and the token cache. -/

/-- TokenType (github.rs lines 42-46). -/
inductive TokenType where
  | JWT
  | Installation (id : Int)
deriving DecidableEq, Repr

/-- Token (github.rs lines 48-54), timestamps as Int seconds. -/
structure Token where
  t : String
  ttype : TokenType
  created_at : Int
  expires_at : Int
deriving DecidableEq, Repr

/-- Token::expired (github.rs lines 56-60), with the current time passed
    explicitly. The Rust body is literally: chrono::Utc::now() < self.expires_at. -/
def Token.expired (tok : Token) (now : Int) : Bool :=
  now < tok.expires_at

/-- The token cache HashMap of Client (github.rs line 68), modelled as an
    association list with most-recent-insert-first lookup and unique keys. -/
abbrev TokenMap := List (TokenType × Token)

def TokenMap.get (m : TokenMap) (k : TokenType) : Option Token :=
  match m with
  | [] => none
  | kv :: rest => if kv.1 = k then some kv.2 else TokenMap.get rest k

def TokenMap.insert (m : TokenMap) (k : TokenType) (v : Token) : TokenMap :=
  (k, v) :: m.filter (fun kv => kv.1 ≠ k)

def TokenMap.remove (m : TokenMap) (k : TokenType) : TokenMap :=
  m.filter (fun kv => kv.1 ≠ k)

/-- Client::cached_token (github.rs lines 161-169): return the cached value
    only when the entry exists and !expired(). -/
def cached_token (m : TokenMap) (now : Int) (ttype : TokenType) : Option String :=
  match m.get ttype with
  | some tt => if !tt.expired now then some tt.t else none
  | none => none

/-- Claims::new (github.rs lines 84-97): created_at is one minute in the
    past, expires_at seven minutes in the future. Only the two timestamps
    feed the Token bookkeeping; iat, exp and iss feed the signature. -/
def claimsCreatedAt (now : Int) : Int := now - 60

def claimsExpiresAt (now : Int) : Int := now + 420

/-- Client::generate_jwt (github.rs lines 172-186). The jsonwebtoken
    encoding over (iat, exp, iss, key) is an external crate, modelled as an
    abstract signing function from the claim timestamps to the token string
    (app id and key are fixed per client). -/
def generate_jwt (sign : Int → Int → String) (now : Int) : Token :=
  { t := sign (claimsCreatedAt now) (claimsExpiresAt now),
    ttype := .JWT,
    created_at := claimsCreatedAt now,
    expires_at := claimsExpiresAt now }

/-- Client::get_jwt_token (github.rs lines 188-198): on a cache hit return
    the cached value, otherwise generate, insert under the JWT key and
    return the fresh value. Returns the value and the updated cache. -/
def get_jwt_token (sign : Int → Int → String) (m : TokenMap) (now : Int) :
    String × TokenMap :=
  match cached_token m now .JWT with
  | some t => (t, m)
  | none =>
    let token := generate_jwt sign now
    (token.t, m.insert .JWT token)

/-- structs.rs InstallationToken (lines 77-83), the fields the client reads. -/
structure InstallationToken where
  token : String
  expires_at : Int
deriving DecidableEq, Repr

/-- Client::get_installation_token (github.rs lines 200-221): on a cache hit
    return the cached value; otherwise obtain a JWT (possibly minting one),
    exchange it at the installation tokens endpoint (modelled as the
    function exch from the JWT value to the response, failing like the HTTP
    call), shorten the response expiry by five minutes, cache under the
    Installation key and return. Errors propagate. -/
def get_installation_token (sign : Int → Int → String)
    (exch : String → Except String InstallationToken)
    (m : TokenMap) (now : Int) (iid : Int) :
    Except String (String × TokenMap) :=
  let ttype := TokenType.Installation iid
  match cached_token m now ttype with
  | some t => .ok (t, m)
  | none =>
    let jm := get_jwt_token sign m now
    match exch jm.1 with
    | .error e => .error e
    | .ok resp =>
      let token : Token :=
        { t := resp.token, ttype := ttype,
          created_at := now, expires_at := resp.expires_at - 300 }
      .ok (token.t, jm.2.insert ttype token)

/-! src/github.rs : installations registry. -/

/-- structs.rs Repository (lines 14-21), the fields the client reads. -/
structure Repository where
  id : Int
  name : String
  full_name : String
deriving DecidableEq, Repr

/-- structs.rs Installation (lines 66-74), account as its login string. -/
structure Installation where
  id : Int
  account : String
  app_id : Int
  repositories : List Repository
deriving DecidableEq, Repr

/-- The installations HashMap of Client (github.rs line 69). -/
abbrev InstMap := List (Int × Installation)

def InstMap.get (m : InstMap) (k : Int) : Option Installation :=
  match m with
  | [] => none
  | kv :: rest => if kv.1 = k then some kv.2 else InstMap.get rest k

def InstMap.remove (m : InstMap) (k : Int) : InstMap :=
  m.filter (fun kv => kv.1 ≠ k)

/-- Client::remove_installation (github.rs lines 266-272): drop the
    installation from the registry and drop its cached installation token. -/
def remove_installation (insts : InstMap) (toks : TokenMap) (inst : Installation) :
    InstMap × TokenMap :=
  (insts.remove inst.id, toks.remove (TokenType.Installation inst.id))

/-! src/github.rs : Client::pulls pagination (lines 288-310). -/

/-- The paginated fetch loop: for page in 1..100, fetch the page (an HTTP
    call that may fail, modelled by fetch), stop at the first empty page,
    append everything else in order. The fuel argument counts the loop
    iterations left (99 at the top). Alongside the value the code computes,
    the second component is a ghost log of the pages actually queried, in
    query order. -/
def pullsAux (fetch : Nat → Except String (List PullRequest)) :
    Nat → Nat → Except String (List PullRequest × List Nat)
  | _, 0 => .ok ([], [])
  | page, fuel + 1 =>
    match fetch page with
    | .error e => .error e
    | .ok resp =>
      if resp.isEmpty then .ok ([], [page])
      else
        match pullsAux fetch (page + 1) fuel with
        | .error e => .error e
        | .ok rest => .ok (resp ++ rest.1, page :: rest.2)

/-- Client::pulls (github.rs lines 288-310): pages 1 through 99. -/
def pulls (fetch : Nat → Except String (List PullRequest)) :
    Except String (List PullRequest × List Nat) :=
  pullsAux fetch 1 99

/-! Concrete fixtures used by the evaluation theorems and witnesses below.
    A test pull changes a given list of files; each changed file record has
    the file path both as its raw target header and as its derived path()
    (a diff without the conventional a/ b/ prefixes). -/

def mkTestPull (n : Int) (url : String) (files : List String) : PullRequest :=
  { id := n, number := n, state := "open", title := "t", user_login := "u",
    html_url := url, created_at := 0, updated_at := 0,
    diff := some { files := files.map (fun f => { target_file := f, path := f }) } }

def pullEn : PullRequest := mkTestPull 1 "urlA" ["guide/en.md"]

def pullEs : PullRequest := mkTestPull 2 "urlB" ["guide/es.md"]

def pullEsFr : PullRequest := mkTestPull 3 "urlC" ["guide/es.md", "guide/fr.md"]

def pullOtherEs : PullRequest := mkTestPull 4 "urlD" ["other/es.md"]

def pullNoDiff : PullRequest :=
  { id := 5, number := 5, state := "open", title := "t", user_login := "u",
    html_url := "urlE", created_at := 0, updated_at := 0, diff := none }

/-! Theorems. -/

/-- Claim C6: parsing "docs/intro/en.md" yields Article{path="docs/intro",
    language="en"} with is_original() true; parsing "docs/intro/es.md"
    yields is_translation() true; and for both, file_path() reconstructs the
    original input path. -/
theorem c6_article_roundtrip :
    Article.from_file_path "docs/intro/en.md" =
      some { path := "docs/intro", language := "en" } ∧
    ({ path := "docs/intro", language := "en" } : Article).is_original = true ∧
    Article.from_file_path "docs/intro/es.md" =
      some { path := "docs/intro", language := "es" } ∧
    ({ path := "docs/intro", language := "es" } : Article).is_translation = true ∧
    ({ path := "docs/intro", language := "en" } : Article).file_path =
      "docs/intro/en.md" ∧
    ({ path := "docs/intro", language := "es" } : Article).file_path =
      "docs/intro/es.md" := by
  decide

/-- Claim C2, counterexample: with pull A (number 1) changing only
    guide/en.md and pull B (number 2) changing only guide/es.md,
    compare(B, A) does return a single ExistingOriginalChange with
    trigger = B.number and original = A.number, but its file_set is the
    incoming translation path ["guide/es.md"] (pulls.rs line 215 pushes
    new_article.file_path()), not ["guide/en.md"] as the claim states. -/
theorem c2_counterexample :
    compare_pulls pullEs pullEn =
      some [Conflict.existing_original_change 2 1 "urlA" ["guide/es.md"]] ∧
    compare_pulls pullEs pullEn ≠
      some [Conflict.existing_original_change 2 1 "urlA" ["guide/en.md"]] := by
  decide

/-- Claim C2, amended: for pull A whose diff changes only guide/en.md and
    pull B whose diff changes only guide/es.md, compare(A, B) returns
    exactly one conflict, a NewOriginalChange with trigger = B.number,
    original = A.number, file_set = ["guide/en.md"]; and compare(B, A)
    returns exactly one conflict, an ExistingOriginalChange with
    trigger = B.number, original = A.number, file_set = ["guide/es.md"]. -/
theorem c2_amended : ∀ (a b : PullRequest) (fa fb : PatchedFile),
    a.diff = some { files := [fa] } → b.diff = some { files := [fb] } →
    strEndsWith fa.target_file ".md" = true → fa.path = "guide/en.md" →
    strEndsWith fb.target_file ".md" = true → fb.path = "guide/es.md" →
    compare_pulls a b =
      some [Conflict.new_original_change b.number a.number a.html_url
        ["guide/en.md"]] ∧
    compare_pulls b a =
      some [Conflict.existing_original_change b.number a.number a.html_url
        ["guide/es.md"]] := by
  intro a b fa fb hda hdb hta hpa htb hpb
  have hen : Article.from_file_path "guide/en.md" =
      some { path := "guide", language := "en" } := by decide
  have hes : Article.from_file_path "guide/es.md" =
      some { path := "guide", language := "es" } := by decide
  constructor
  · simp [compare_pulls, hda, hdb, comparePullsWithDiffs, mdFiles,
      List.filter, hta, htb, filePairs, parsesOk, hpa, hpb, hen, hes,
      overlapOf, originalOf, translationOf, Article.file_path,
      Article.is_original, Article.is_translation, sortLe, insertLe,
      Conflict.new_original_change, Conflict.existing_original_change,
      Conflict.existing_change]
  · simp [compare_pulls, hda, hdb, comparePullsWithDiffs, mdFiles,
      List.filter, hta, htb, filePairs, parsesOk, hpa, hpb, hen, hes,
      overlapOf, originalOf, translationOf, Article.file_path,
      Article.is_original, Article.is_translation, sortLe, insertLe,
      Conflict.new_original_change, Conflict.existing_original_change,
      Conflict.existing_change]

/-- Claim C2, amended, witness at the concrete fixture pulls. -/
theorem c2_amended_witness :
    compare_pulls pullEn pullEs =
      some [Conflict.new_original_change 2 1 "urlA" ["guide/en.md"]] ∧
    compare_pulls pullEs pullEn =
      some [Conflict.existing_original_change 2 1 "urlA" ["guide/es.md"]] :=
  c2_amended pullEn pullEs
    { target_file := "guide/en.md", path := "guide/en.md" }
    { target_file := "guide/es.md", path := "guide/es.md" }
    rfl rfl (by decide) rfl (by decide) rfl

/-- Claim C3, the code bug at a failing input: pull 1 changes only
    guide/en.md, pull 3 changes guide/es.md and guide/fr.md; the single
    NewOriginalChange conflict carries file_set
    ["guide/en.md", "guide/en.md"] — sorted but with a duplicate, because
    compare_pulls pushes the same original path once per matching
    translation pair and only sorts (pulls.rs lines 220-222), never
    deduplicating, contrary to the uniqueness documented on the file_set
    field (pulls.rs line 53). -/
theorem c3_fileset_duplicates :
    compare_pulls pullEn pullEsFr =
      some [Conflict.new_original_change 3 1 "urlA"
        ["guide/en.md", "guide/en.md"]] := by
  decide

/-- Claim C4, counterexample: the claim requires parsing to fail on every
    bare filename, but Article::from_file_path succeeds on the bare
    filename "foo.md": Rust Path::parent of a single-component relative
    path is the empty path, so the result is Article{path="", language="foo"}
    (and the failures that do occur are unwrap panics, not a recoverable
    MalformedPath error). -/
theorem c4_counterexample :
    Article.from_file_path "foo.md" = some { path := "", language := "foo" } ∧
    Article.from_file_path "foo.md" ≠ none := by
  decide

/-- Whenever a path has a file name (hence a file stem), it also has a
    parent: the match in parentPath returns some in every branch once the
    component list is non-empty. This is why the second unwrap in
    Article::from_file_path can only panic together with the first. -/
theorem fileName_some_parent_some {s n : String} (h : fileName s = some n) :
    ∃ p, parentPath s = some p := by
  unfold fileName at h
  unfold parentPath
  cases hl : (componentsIdx (pathChunks s)).getLast? with
  | none => rw [hl] at h; exact absurd h (by simp)
  | some ic =>
    cases hl2 : (componentsIdx ((pathChunks s).take ic.1)).getLast? with
    | none =>
      refine ⟨String.mk (List.replicate ic.1 '/'), ?_⟩
      simp [hl, hl2]
    | some jc =>
      refine ⟨String.intercalate "/" ((pathChunks s).take (jc.1 + 1)), ?_⟩
      simp [hl, hl2]

/-- Claim C4, amended: Article parsing from a file path fails — by an
    unwrap panic (modelled as none), not a recoverable MalformedPath
    error — exactly for the input paths that have no file stem (for
    example the empty string, or a path ending in ".."); for every other
    path, including a bare filename, it returns an Article whose path is
    the (possibly empty) parent directory and whose language is the file
    stem. -/
theorem c4_amended :
    (∀ s : String,
      (Article.from_file_path s = none ↔ fileStem s = none) ∧
      ∀ a : Article, Article.from_file_path s = some a →
        fileStem s = some a.language ∧ parentPath s = some a.path) ∧
    Article.from_file_path "" = none := by
  refine ⟨fun s => ⟨⟨?_, ?_⟩, ?_⟩, by decide⟩
  · intro h
    cases hfs : fileStem s with
    | none => rfl
    | some l =>
      obtain ⟨n, hn, -⟩ := Option.map_eq_some'.mp (by
        unfold fileStem at hfs; exact hfs)
      obtain ⟨p, hp⟩ := fileName_some_parent_some hn
      unfold Article.from_file_path at h
      rw [hfs, hp] at h
      simp at h
  · intro h
    unfold Article.from_file_path
    rw [h]
  · intro a ha
    unfold Article.from_file_path at ha
    cases hfs : fileStem s with
    | none => rw [hfs] at ha; simp at ha
    | some l =>
      rw [hfs] at ha
      cases hp : parentPath s with
      | none => rw [hp] at ha; simp at ha
      | some p =>
        rw [hp] at ha
        obtain rfl := Option.some.inj ha
        exact ⟨rfl, rfl⟩

/-- Claim C4, amended, witness at a concrete well-formed path. -/
theorem c4_amended_witness :
    fileStem "docs/intro/en.md" = some "en" ∧
    parentPath "docs/intro/en.md" = some "docs/intro" :=
  (c4_amended.1 "docs/intro/en.md").2
    { path := "docs/intro", language := "en" } (by decide)

/-- Claim C7: compare_pulls requires both pull requests to carry an
    attached diff; if either diff is absent the call panics on the unwrap
    at pulls.rs lines 182-183 (modelled as none — a failure signal, not a
    silent empty result), and when both diffs are present the diff-access
    failure branch is unreachable: the call proceeds to the comparison
    body. -/
theorem c7_diff_precondition : ∀ np op : PullRequest,
    ((np.diff = none ∨ op.diff = none) → compare_pulls np op = none) ∧
    ∀ d1 d2 : PatchSet, np.diff = some d1 → op.diff = some d2 →
      compare_pulls np op = comparePullsWithDiffs np op d1 d2 := by
  intro np op
  constructor
  · intro h
    unfold compare_pulls
    rcases h with h | h
    · rw [h]
    · rw [h]; cases np.diff <;> rfl
  · intro d1 d2 h1 h2
    unfold compare_pulls
    rw [h1, h2]

/-- Claim C7, witness: a pull request without an attached diff makes
    compare_pulls fail. -/
theorem c7_witness : compare_pulls pullNoDiff pullEs = none :=
  (c7_diff_precondition pullNoDiff pullEs).1 (Or.inl rfl)

/-- Claim C1, the code bug at a failing input: Token::expired
    (github.rs line 58) computes now < expires_at, the exact inversion of
    the documented semantics. Concretely: a JWT minted at time 1000 carries
    expires_at 1420, yet a second request at time 1001 (strictly before
    expiry) misses the cache and mints a fresh token, while a request at
    time 2000 (after expiry) returns the stale cached value and leaves the
    cache unchanged; installation tokens behave the same way (a second
    exchange happens strictly before expiry; after expiry the stale token
    is served). -/
theorem c1_token_cache_inverted :
    Token.expired { t := "x", ttype := .JWT, created_at := 0, expires_at := 100 } 50 = true ∧
    Token.expired { t := "x", ttype := .JWT, created_at := 0, expires_at := 100 } 150 = false ∧
    (let sign := fun (iat : Int) (_ : Int) => if iat = 940 then "jwt0" else "jwt1"
     let r0 := get_jwt_token sign [] 1000
     r0.1 = "jwt0" ∧
     TokenMap.get r0.2 .JWT =
       some { t := "jwt0", ttype := .JWT, created_at := 940, expires_at := 1420 } ∧
     (get_jwt_token sign r0.2 1001).1 = "jwt1" ∧
     (get_jwt_token sign r0.2 2000).1 = "jwt0" ∧
     (get_jwt_token sign r0.2 2000).2 = r0.2) ∧
    (let sign := fun (iat : Int) (_ : Int) => if iat = 940 then "jwt0" else "jwt1"
     let exchA := fun (_ : String) =>
       Except.ok ({ token := "instA", expires_at := 10000 } : InstallationToken)
     let exchB := fun (_ : String) =>
       Except.ok ({ token := "instB", expires_at := 10000 } : InstallationToken)
     let r1 := get_installation_token sign exchA [] 1000 7
     let st1 := match r1 with | .ok pr => pr.2 | .error _ => []
     (Except.map Prod.fst r1).toOption = some "instA" ∧
     (Except.map Prod.fst (get_installation_token sign exchB st1 1001 7)).toOption =
       some "instB" ∧
     (Except.map Prod.fst (get_installation_token sign exchB st1 9800 7)).toOption =
       some "instA") := by
  decide

/-- Looking up a key right after TokenMap.remove of that key finds
    nothing. -/
theorem tokget_remove_self (m : TokenMap) (k : TokenType) :
    TokenMap.get (TokenMap.remove m k) k = none := by
  induction m with
  | nil => rfl
  | cons kv rest ih =>
    by_cases h : kv.1 = k
    · simpa [TokenMap.remove, List.filter_cons, h] using ih
    · simpa [TokenMap.remove, List.filter_cons, h, TokenMap.get] using ih

/-- Looking up a key right after InstMap.remove of that key finds
    nothing. -/
theorem instget_remove_self (m : InstMap) (k : Int) :
    InstMap.get (InstMap.remove m k) k = none := by
  induction m with
  | nil => rfl
  | cons kv rest ih =>
    by_cases h : kv.1 = k
    · simpa [InstMap.remove, List.filter_cons, h] using ih
    · simpa [InstMap.remove, List.filter_cons, h, InstMap.get] using ih

/-- Claim C9: removing an installation deletes both its registry entry and
    its cached installation token; afterwards no cached value exists for
    that tenant, and any subsequent credential request for it goes through
    a fresh token exchange, returning the exchanged value — so it cannot
    return a pre-removal token value whenever the fresh exchange yields a
    different one. -/
theorem c9_remove_evicts :
    ∀ (insts : InstMap) (toks : TokenMap) (inst : Installation),
      InstMap.get (remove_installation insts toks inst).1 inst.id = none ∧
      TokenMap.get (remove_installation insts toks inst).2
        (TokenType.Installation inst.id) = none ∧
      (∀ now : Int,
        cached_token (remove_installation insts toks inst).2 now
          (TokenType.Installation inst.id) = none) ∧
      ∀ (sign : Int → Int → String)
        (exch : String → Except String InstallationToken)
        (resp : InstallationToken) (now : Int),
        (∀ j, exch j = Except.ok resp) →
        Except.map Prod.fst
          (get_installation_token sign exch
            (remove_installation insts toks inst).2 now inst.id) =
          Except.ok resp.token := by
  intro insts toks inst
  have hg : TokenMap.get (remove_installation insts toks inst).2
      (TokenType.Installation inst.id) = none :=
    tokget_remove_self toks (TokenType.Installation inst.id)
  have hc : ∀ now : Int,
      cached_token (remove_installation insts toks inst).2 now
        (TokenType.Installation inst.id) = none := by
    intro now
    unfold cached_token
    rw [hg]
  refine ⟨instget_remove_self insts inst.id, hg, hc, ?_⟩
  intro sign exch resp now hexch
  simp only [get_installation_token, hc now, hexch, Except.map]

/-- Claim C9, witness at a concrete removed installation. -/
theorem c9_witness :
    Except.map Prod.fst
      (get_installation_token (fun _ _ => "j") (fun _ => Except.ok
          ({ token := "fresh", expires_at := 10000 } : InstallationToken))
        (remove_installation
          [(7, { id := 7, account := "acc", app_id := 1, repositories := [] })]
          [(TokenType.Installation 7,
            { t := "stale", ttype := TokenType.Installation 7,
              created_at := 0, expires_at := 10000 })]
          { id := 7, account := "acc", app_id := 1, repositories := [] }).2
        500 7) = Except.ok "fresh" :=
  ((c9_remove_evicts
    [(7, { id := 7, account := "acc", app_id := 1, repositories := [] })]
    [(TokenType.Installation 7,
      { t := "stale", ttype := TokenType.Installation 7,
        created_at := 0, expires_at := 10000 })]
    { id := 7, account := "acc", app_id := 1, repositories := [] }).2.2.2
    (fun _ _ => "j")
    (fun _ => Except.ok { token := "fresh", expires_at := 10000 })
    { token := "fresh", expires_at := 10000 } 500 (fun _ => rfl))

/-- Membership in the nested-loop pair list is componentwise membership. -/
theorem mem_filePairs {md1 md2 : List PatchedFile}
    {p : PatchedFile × PatchedFile} :
    p ∈ filePairs md1 md2 ↔ p.1 ∈ md1 ∧ p.2 ∈ md2 := by
  unfold filePairs
  constructor
  · intro h
    obtain ⟨i, hi, h2⟩ := List.mem_flatMap.mp h
    obtain ⟨o, ho, rfl⟩ := List.mem_map.mp h2
    exact ⟨hi, ho⟩
  · intro ⟨h1, h2⟩
    exact List.mem_flatMap.mpr ⟨p.1, h1,
      List.mem_map.mpr ⟨p.2, h2, rfl⟩⟩

/-- Insertion keeps exactly the old elements plus the new one. -/
theorem mem_insertLe {le : α → α → Bool} {x a : α} {l : List α} :
    x ∈ insertLe le a l ↔ x = a ∨ x ∈ l := by
  induction l with
  | nil => simp [insertLe]
  | cons y ys ih =>
    unfold insertLe
    cases h : le a y with
    | true => simp [h]
    | false =>
      simp [h, ih]
      tauto

/-- Sorting keeps exactly the elements of the input list. -/
theorem mem_sortLe {le : α → α → Bool} {x : α} {l : List α} :
    x ∈ sortLe le l ↔ x ∈ l := by
  induction l with
  | nil => simp [sortLe]
  | cons y ys ih => simp [sortLe, mem_insertLe, ih]

/-- When the two sides of a pair are articles from different directories,
    the pair contributes to none of the three collections (the loop hits
    the continue on pulls.rs line 204). -/
theorem classifiers_none_of_path_ne {i o : PatchedFile} {a b : Article}
    (ha : Article.from_file_path i.path = some a)
    (hb : Article.from_file_path o.path = some b)
    (hne : a.path ≠ b.path) :
    overlapOf i o = none ∧ originalOf i o = none ∧ translationOf i o = none := by
  unfold overlapOf originalOf translationOf
  rw [ha, hb]
  simp [hne]

/-- Claim C5: for every pair of pull requests with attached diffs whose
    changed .md files resolve to articles with disjoint directory sets,
    compare_pulls returns the empty conflict list. -/
theorem c5_disjoint_empty :
    ∀ (np op : PullRequest) (d1 d2 : PatchSet),
      np.diff = some d1 → op.diff = some d2 →
      (∀ i ∈ mdFiles d1, Option.isSome (Article.from_file_path i.path) = true) →
      (∀ o ∈ mdFiles d2, Option.isSome (Article.from_file_path o.path) = true) →
      (∀ i ∈ mdFiles d1, ∀ o ∈ mdFiles d2, ∀ a b : Article,
        Article.from_file_path i.path = some a →
        Article.from_file_path o.path = some b → a.path ≠ b.path) →
      compare_pulls np op = some [] := by
  intro np op d1 d2 h1 h2 hs1 hs2 hdisj
  have hpair : ∀ p ∈ filePairs (mdFiles d1) (mdFiles d2),
      overlapOf p.1 p.2 = none ∧ originalOf p.1 p.2 = none ∧
      translationOf p.1 p.2 = none := by
    intro p hp
    obtain ⟨hp1, hp2⟩ := mem_filePairs.mp hp
    obtain ⟨a, ha⟩ := Option.isSome_iff_exists.mp (hs1 _ hp1)
    obtain ⟨b, hb⟩ := Option.isSome_iff_exists.mp (hs2 _ hp2)
    exact classifiers_none_of_path_ne ha hb (hdisj _ hp1 _ hp2 _ _ ha hb)
  have hall : (filePairs (mdFiles d1) (mdFiles d2)).all
      (fun p => parsesOk p.1 p.2) = true := by
    rw [List.all_eq_true]
    intro p hp
    obtain ⟨hp1, hp2⟩ := mem_filePairs.mp hp
    unfold parsesOk
    rw [hs1 _ hp1, hs2 _ hp2]
    rfl
  have e1 : (filePairs (mdFiles d1) (mdFiles d2)).filterMap
      (fun p => overlapOf p.1 p.2) = [] :=
    List.filterMap_eq_nil_iff.mpr (fun p hp => (hpair p hp).1)
  have e2 : (filePairs (mdFiles d1) (mdFiles d2)).filterMap
      (fun p => originalOf p.1 p.2) = [] :=
    List.filterMap_eq_nil_iff.mpr (fun p hp => (hpair p hp).2.1)
  have e3 : (filePairs (mdFiles d1) (mdFiles d2)).filterMap
      (fun p => translationOf p.1 p.2) = [] :=
    List.filterMap_eq_nil_iff.mpr (fun p hp => (hpair p hp).2.2)
  unfold compare_pulls
  rw [h1, h2]
  simp only [comparePullsWithDiffs, hall, e1, e2, e3, if_true]
  rfl

/-- Claim C5, witness: pull 1 changes guide/en.md, pull 4 changes
    other/es.md; no conflict. -/
theorem c5_witness : compare_pulls pullEn pullOtherEs = some [] := by
  refine c5_disjoint_empty pullEn pullOtherEs _ _ rfl rfl
    (by decide) (by decide) ?_
  intro i hi o ho a b ha hb
  have hmd1 : mdFiles { files :=
      [{ target_file := "guide/en.md", path := "guide/en.md" }] } =
      [{ target_file := "guide/en.md", path := "guide/en.md" }] := by decide
  have hmd2 : mdFiles { files :=
      [{ target_file := "other/es.md", path := "other/es.md" }] } =
      [{ target_file := "other/es.md", path := "other/es.md" }] := by decide
  simp only [List.map] at hi ho
  rw [hmd1] at hi
  rw [hmd2] at ho
  obtain rfl := List.mem_singleton.mp hi
  obtain rfl := List.mem_singleton.mp ho
  have hga : Article.from_file_path "guide/en.md" =
      some { path := "guide", language := "en" } := by decide
  have hgb : Article.from_file_path "other/es.md" =
      some { path := "other", language := "es" } := by decide
  rw [hga] at ha
  rw [hgb] at hb
  obtain rfl := Option.some.inj ha
  obtain rfl := Option.some.inj hb
  decide

/-- A pair contributes to the originals list only with the file_path of the
    incoming side's article, which is an original (language "en"). -/
theorem originalOf_characterize {i o : PatchedFile} {f : String}
    (h : originalOf i o = some f) :
    ∃ a : Article, Article.from_file_path i.path = some a ∧
      a.language = "en" ∧ f = a.file_path := by
  unfold originalOf at h
  cases hia : Article.from_file_path i.path with
  | none => rw [hia] at h; exact Option.noConfusion h
  | some na =>
    cases hoa : Article.from_file_path o.path with
    | none => rw [hia, hoa] at h; exact Option.noConfusion h
    | some ob =>
      rw [hia, hoa] at h
      dsimp only at h
      by_cases hp : na.path ≠ ob.path
      · rw [if_pos hp] at h; exact Option.noConfusion h
      · rw [if_neg hp] at h
        by_cases he : na = ob
        · rw [if_pos he] at h; exact Option.noConfusion h
        · rw [if_neg he] at h
          by_cases hb : (na.is_original && ob.is_translation) = true
          · rw [if_pos hb] at h
            refine ⟨na, rfl, ?_, (Option.some.inj h).symm⟩
            rw [Bool.and_eq_true] at hb
            exact eq_of_beq hb.1
          · rw [if_neg hb] at h; exact Option.noConfusion h

/-- A pair contributes to the translations list only with the file_path of
    the incoming side's article, which is a translation (language not
    "en"). -/
theorem translationOf_characterize {i o : PatchedFile} {f : String}
    (h : translationOf i o = some f) :
    ∃ a : Article, Article.from_file_path i.path = some a ∧
      a.language ≠ "en" ∧ f = a.file_path := by
  unfold translationOf at h
  cases hia : Article.from_file_path i.path with
  | none => rw [hia] at h; exact Option.noConfusion h
  | some na =>
    cases hoa : Article.from_file_path o.path with
    | none => rw [hia, hoa] at h; exact Option.noConfusion h
    | some ob =>
      rw [hia, hoa] at h
      dsimp only at h
      by_cases hp : na.path ≠ ob.path
      · rw [if_pos hp] at h; exact Option.noConfusion h
      · rw [if_neg hp] at h
        by_cases he : na = ob
        · rw [if_pos he] at h; exact Option.noConfusion h
        · rw [if_neg he] at h
          by_cases hb : (na.is_original && ob.is_translation) = true
          · rw [if_pos hb] at h; exact Option.noConfusion h
          · rw [if_neg hb] at h
            by_cases hb2 : (na.is_translation && ob.is_original) = true
            · rw [if_pos hb2] at h
              refine ⟨na, rfl, ?_, (Option.some.inj h).symm⟩
              rw [Bool.and_eq_true] at hb2
              have ht := hb2.1
              unfold Article.is_translation at ht
              rw [Bool.not_eq_true'] at ht
              exact ne_of_beq_false ht
            · rw [if_neg hb2] at h; exact Option.noConfusion h

/-- Claim C10: in every conflict list compare_pulls returns, every path in
    a NewOriginalChange conflict's file_set is the file path of an
    original-language article (language "en") parsed from a changed .md
    file of the new (incoming) pull's diff, and every path in an
    ExistingOriginalChange conflict's file_set is the file path of a
    translation article (language not "en") parsed from a changed .md file
    of the new pull's diff — never from the other pull's diff. -/
theorem c10_provenance :
    ∀ (np op : PullRequest) (d1 d2 : PatchSet) (cs : List Conflict),
      np.diff = some d1 → op.diff = some d2 →
      compare_pulls np op = some cs →
      ∀ c ∈ cs,
        (c.kind = ConflictType.NewOriginalChange →
          ∀ f ∈ c.file_set, ∃ pf ∈ mdFiles d1, ∃ a : Article,
            Article.from_file_path pf.path = some a ∧
            a.language = "en" ∧ f = a.file_path) ∧
        (c.kind = ConflictType.ExistingOriginalChange →
          ∀ f ∈ c.file_set, ∃ pf ∈ mdFiles d1, ∃ a : Article,
            Article.from_file_path pf.path = some a ∧
            a.language ≠ "en" ∧ f = a.file_path) := by
  intro np op d1 d2 cs h1 h2 hc c hmem
  unfold compare_pulls at hc
  rw [h1, h2] at hc
  simp only [comparePullsWithDiffs] at hc
  by_cases hall : (filePairs (mdFiles d1) (mdFiles d2)).all
      (fun p => parsesOk p.1 p.2) = true
  · rw [if_pos hall] at hc
    obtain rfl := (Option.some.inj hc).symm
    replace hmem := mem_sortLe.mp hmem
    rcases List.mem_append.mp hmem with hm | hm3
    · rcases List.mem_append.mp hm with hm1 | hm2
      · by_cases he : (sortLe strLe ((filePairs (mdFiles d1) (mdFiles d2)).filterMap
            (fun p => overlapOf p.1 p.2))).isEmpty = true
        · rw [if_pos he] at hm1; exact absurd hm1 (List.not_mem_nil c)
        · rw [if_neg he] at hm1
          obtain rfl := List.mem_singleton.mp hm1
          exact ⟨fun hk => ConflictType.noConfusion hk,
                 fun hk => ConflictType.noConfusion hk⟩
      · by_cases he : (sortLe strLe ((filePairs (mdFiles d1) (mdFiles d2)).filterMap
            (fun p => originalOf p.1 p.2))).isEmpty = true
        · rw [if_pos he] at hm2; exact absurd hm2 (List.not_mem_nil c)
        · rw [if_neg he] at hm2
          obtain rfl := List.mem_singleton.mp hm2
          refine ⟨fun _ f hf => ?_, fun hk => ConflictType.noConfusion hk⟩
          have hf' : f ∈ sortLe strLe
              ((filePairs (mdFiles d1) (mdFiles d2)).filterMap
                (fun p => originalOf p.1 p.2)) := hf
          obtain ⟨p, hp, hof⟩ := List.mem_filterMap.mp (mem_sortLe.mp hf')
          obtain ⟨a, ha, hlang, hfa⟩ := originalOf_characterize hof
          exact ⟨p.1, (mem_filePairs.mp hp).1, a, ha, hlang, hfa⟩
    · by_cases he : (sortLe strLe ((filePairs (mdFiles d1) (mdFiles d2)).filterMap
          (fun p => translationOf p.1 p.2))).isEmpty = true
      · rw [if_pos he] at hm3; exact absurd hm3 (List.not_mem_nil c)
      · rw [if_neg he] at hm3
        obtain rfl := List.mem_singleton.mp hm3
        refine ⟨fun hk => ConflictType.noConfusion hk, fun _ f hf => ?_⟩
        have hf' : f ∈ sortLe strLe
            ((filePairs (mdFiles d1) (mdFiles d2)).filterMap
              (fun p => translationOf p.1 p.2)) := hf
        obtain ⟨p, hp, hof⟩ := List.mem_filterMap.mp (mem_sortLe.mp hf')
        obtain ⟨a, ha, hlang, hfa⟩ := translationOf_characterize hof
        exact ⟨p.1, (mem_filePairs.mp hp).1, a, ha, hlang, hfa⟩
  · rw [if_neg hall] at hc
    exact Option.noConfusion hc

/-- Claim C10, witness: the duplicate-bearing NewOriginalChange from pulls
    1 and 3 draws its file paths from the new pull's diff with language
    "en". -/
theorem c10_witness :
    ∃ pf ∈ mdFiles { files :=
        [{ target_file := "guide/en.md", path := "guide/en.md" }] },
      ∃ a : Article, Article.from_file_path pf.path = some a ∧
        a.language = "en" ∧ "guide/en.md" = a.file_path :=
  (c10_provenance pullEn pullEsFr
      { files := [{ target_file := "guide/en.md", path := "guide/en.md" }] }
      { files := [{ target_file := "guide/es.md", path := "guide/es.md" },
                  { target_file := "guide/fr.md", path := "guide/fr.md" }] }
      [Conflict.new_original_change 3 1 "urlA" ["guide/en.md", "guide/en.md"]]
      rfl rfl (by decide)
      (Conflict.new_original_change 3 1 "urlA" ["guide/en.md", "guide/en.md"])
      (by decide)).1 rfl "guide/en.md" (by decide)

/-- Consecutive page numbers: prepending the start page shifts the range
    map. -/
theorem range_map_add_succ (n k : Nat) :
    (List.range (n + 1)).map (· + k) = k :: (List.range n).map (· + (k + 1)) := by
  rw [List.range_succ_eq_map]
  simp only [List.map_cons, List.map_map, Nat.zero_add]
  congr 1
  apply List.map_congr_left
  intro x hx
  simp only [Function.comp_apply]
  omega

/-- The pagination loop, fully characterized when every fetch succeeds:
    starting at page start with the given fuel, it queries consecutive
    pages from start, at most fuel of them, stopping after the first empty
    page, and returns the concatenation of the queried pages' results. -/
theorem pullsAux_ok (pagesF : Nat → List PullRequest) :
    ∀ (fuel start : Nat),
      ∃ out fetched,
        pullsAux (fun p => Except.ok (pagesF p)) start fuel =
          Except.ok (out, fetched) ∧
        fetched.length ≤ fuel ∧
        (1 ≤ fuel → 1 ≤ fetched.length) ∧
        fetched = (List.range fetched.length).map (· + start) ∧
        (∀ p ∈ fetched.dropLast, pagesF p ≠ []) ∧
        (1 ≤ fuel → ∃ l, fetched.getLast? = some l ∧
          (pagesF l = [] ∨ fetched.length = fuel)) ∧
        out = (fetched.map pagesF).flatten := by
  intro fuel
  induction fuel with
  | zero =>
    intro start
    refine ⟨[], [], rfl, by simp, ?_, by simp, by simp, ?_, by simp⟩
    · intro h; exact absurd h (by decide)
    · intro h; exact absurd h (by decide)
  | succ n ih =>
    intro start
    by_cases hE : pagesF start = []
    · refine ⟨[], [start], ?_, by simp, fun _ => by simp,
        by simp [List.range_succ], by simp,
        fun _ => ⟨start, rfl, Or.inl hE⟩, by simp [hE]⟩
      unfold pullsAux
      simp [hE]
    · obtain ⟨out', fetched', heq, hlen, hpos, hseq, hdrop, hlast, hout⟩ :=
        ih (start + 1)
      have hne : (pagesF start).isEmpty = false := by
        cases hpg : pagesF start with
        | nil => exact absurd hpg hE
        | cons a l => rfl
      refine ⟨pagesF start ++ out', start :: fetched', ?_, ?_, ?_, ?_, ?_, ?_, ?_⟩
      · unfold pullsAux
        simp [hne, heq]
      · simp only [List.length_cons]
        omega
      · intro _
        simp
      · simp only [List.length_cons]
        rw [range_map_add_succ, ← hseq]
      · intro p hp
        cases hfe : fetched' with
        | nil => rw [hfe] at hp; simp at hp
        | cons b bs =>
          rw [hfe] at hp
          have hdl : List.dropLast (start :: b :: bs) =
              start :: List.dropLast (b :: bs) := rfl
          rw [hdl] at hp
          rcases List.mem_cons.mp hp with rfl | hmem2
          · exact hE
          · exact hdrop p (by rw [hfe]; exact hmem2)
      · intro _
        cases hfe : fetched' with
        | nil =>
          refine ⟨start, rfl, Or.inr ?_⟩
          have hn0 : ¬ 1 ≤ n := by
            intro h
            have := hpos h
            rw [hfe] at this
            simp at this
          simp only [hfe, List.length_cons, List.length_nil]
          omega
        | cons b bs =>
          have hn1 : 1 ≤ n := by
            by_contra hcon
            have : n = 0 := by omega
            rw [this, Nat.le_zero, hfe] at hlen
            simp at hlen
          obtain ⟨l, hl, hor⟩ := hlast hn1
          refine ⟨l, ?_, ?_⟩
          · rw [hfe] at hl
            rw [List.getLast?_cons_cons]
            exact hl
          · rcases hor with h | h
            · exact Or.inl h
            · right
              rw [hfe] at h
              simp only [List.length_cons] at h ⊢
              omega
      · rw [hout]
        simp

/-- Claim C8: the open-pull-request listing fetches pages in ascending
    order starting from page 1 (the queried pages are exactly 1, 2, ...),
    stops at the first page that returns an empty list, concatenates all
    pages' results in fetch order (the final empty page contributes
    nothing), and never fetches more than 99 pages. -/
theorem c8_pagination :
    ∀ pagesF : Nat → List PullRequest,
      ∃ out fetched,
        pulls (fun p => Except.ok (pagesF p)) = Except.ok (out, fetched) ∧
        1 ≤ fetched.length ∧
        fetched.length ≤ 99 ∧
        fetched = (List.range fetched.length).map (· + 1) ∧
        (∀ p ∈ fetched.dropLast, pagesF p ≠ []) ∧
        (∃ l, fetched.getLast? = some l ∧
          (pagesF l = [] ∨ fetched.length = 99)) ∧
        out = (fetched.map pagesF).flatten := by
  intro pagesF
  obtain ⟨out, fetched, heq, hlen, hpos, hseq, hdrop, hlast, hout⟩ :=
    pullsAux_ok pagesF 99 1
  exact ⟨out, fetched, heq, hpos (by decide), hlen, hseq, hdrop,
    hlast (by decide), hout⟩

end Observatory

